import Mathlib

/-!
Verification of the spc-utils core (static PHP binary listing/resolution tool).

Shallow embedding of the Rust sources under `src/spc/`:
  * `category.rs`  — `BuildCategory`
  * `response.rs`  — `SpcJsonResponse`, its `version()` method and the three
    tolerant serde deserializers
  * `api.rs`       — `ApiOptions` (URL / file-name derivation) and
    `Api::fetch_latest_version` / `Api::fetch_versions`
  * `cache.rs`     — the on-disk response cache (`check_version`, `is_valid`,
    `read`, `write`, `clear`)

Rust machine integers are modelled as `Nat`/`Int` with explicit bounds where
overflow matters; fallible operations return `Option`/`Except`; filesystem and
network effects are modelled by explicit state passing over a `CacheSt` record.
-/

namespace SpcUtils

/-! ### List-of-char string primitives

Rust `str` operations (`split`, `contains`, `ends_with`) modelled on `List Char`
with the semantics of the corresponding `std` methods (all strings involved are
ASCII, so byte positions and char positions coincide). -/

/-- Rust `str::split(sep)`: splitting the empty string yields one empty piece,
adjacent separators yield empty pieces. -/
def splitCh (sep : Char) : List Char → List (List Char)
  | [] => [[]]
  | c :: cs =>
    if c = sep then
      [] :: splitCh sep cs
    else
      match splitCh sep cs with
      | [] => [[c]]
      | g :: gs => (c :: g) :: gs

/-- `startsWithL pat l`: `pat` is an initial segment of `l` (Rust `str::starts_with`). -/
def startsWithL : List Char → List Char → Bool
  | [], _ => true
  | _ :: _, [] => false
  | a :: as, b :: bs => a == b && startsWithL as bs

/-- Rust `str::contains(needle)` for a literal needle: substring test. -/
def containsL (needle : List Char) : List Char → Bool
  | [] => needle.isEmpty
  | c :: cs => startsWithL needle (c :: cs) || containsL needle cs

/-- Rust `str::ends_with(needle)`. -/
def endsWithL (needle l : List Char) : Bool :=
  startsWithL needle.reverse l.reverse

/-- String-level wrapper of `containsL`. -/
def containsS (needle s : String) : Bool := containsL needle.data s.data

/-- String-level wrapper of `endsWithL`. -/
def endsWithS (needle s : String) : Bool := endsWithL needle.data s.data

/-! ### Semantic versions

Model of the `semver` crate's `Version` as its (major, minor, patch) triple.
Every string this program parses as a version is a hyphen-free segment of a
file name (segments are produced by splitting the name on `-`), so the `-pre`
part of the semver grammar is unreachable; on hyphen-free inputs the parser
below matches `semver::Version::parse` — numeric identifiers reject leading
zeros and values above `u64::MAX`, and build metadata after `+` is accepted
when well-formed — up to projecting the build identifiers away.  Every
observation the program makes of a parsed version (ordering, bound matching)
goes through major/minor/patch, and semver ordering uses build metadata only
as a tiebreaker among triple-equal versions, so the projection is invisible to
the claims.  Ordering is lexicographic on (major, minor, patch). -/

structure SemVer where
  major : Nat
  minor : Nat
  patch : Nat
deriving DecidableEq, Repr

/-- `Ord`-style strict comparison used by `Version: PartialOrd` on the
pre-release-free fragment: lexicographic on (major, minor, patch). -/
def SemVer.ltb (a b : SemVer) : Bool :=
  a.major < b.major ||
    (a.major == b.major &&
      (a.minor < b.minor || (a.minor == b.minor && a.patch < b.patch)))

/-- Non-strict companion of `SemVer.ltb`. -/
def SemVer.leb (a b : SemVer) : Bool := a.ltb b || a == b

/-- Digit-string value: the `Nat` denoted by a list of decimal digit chars. -/
def digitsVal (s : List Char) : Nat :=
  s.foldl (fun n d => n * 10 + (d.toNat - 48)) 0

/-- A semver *numeric identifier*: nonempty, all ASCII digits, no leading zero
(the `semver` crate rejects `01`). -/
def isNumericIdent (s : List Char) : Bool :=
  !s.isEmpty && s.all (·.isDigit) && (s.length == 1 || !(s.head? == some '0'))

/-- One dot-separated component of a version core: a numeric identifier whose
value fits `u64` (`semver` errors on overflow). -/
def parseNumeric (s : List Char) : Option Nat :=
  if isNumericIdent s = true ∧ digitsVal s < 2 ^ 64 then some (digitsVal s)
  else none

/-- One build-metadata identifier: nonempty, over `[0-9A-Za-z-]`. -/
def isBuildIdent (s : List Char) : Bool :=
  !s.isEmpty && s.all (fun c => c.isAlphanum || c = '-')

/-- Build metadata: one or more dot-separated build identifiers (the empty
string has no identifier and is rejected). -/
def isBuildMeta (s : List Char) : Bool :=
  (splitCh '.' s).all isBuildIdent

/-- The `major.minor.patch` core: exactly three numeric identifiers. -/
def parseCore (s : List Char) : Option SemVer :=
  match splitCh '.' s with
  | [a, b, c] =>
    match parseNumeric a, parseNumeric b, parseNumeric c with
    | some x, some y, some z => some ⟨x, y, z⟩
    | _, _, _ => none
  | _ => none

/-- Model of `semver::Version::parse` on hyphen-free inputs: the core triple,
optionally followed by `+` and well-formed build metadata (which the program's
`Version` retains and this model projects away); a second `+` cannot occur in
a valid version, matching the crate's error. -/
def SemVer.parse (s : String) : Option SemVer :=
  match splitCh '+' s.data with
  | [core] => parseCore core
  | [core, build] => if isBuildMeta build = true then parseCore core else none
  | _ => none

/-- Model of `Version: Display` on this fragment: `major.minor.patch`. -/
def SemVer.str (v : SemVer) : String :=
  Nat.repr v.major ++ "." ++ Nat.repr v.minor ++ "." ++ Nat.repr v.patch

/-! ### Timestamps

Model of `chrono::DateTime<Utc>` at second precision.  Calendar validity —
including the day-in-month rule with leap years, which chrono enforces both in
its values and in its parsers — is `DateTimeUtc.Valid` below.  The parsers
model the fragment of chrono's grammar that the acceptance claims exercise:
the `Z`-suffixed whole-second RFC 3339 form (chrono's own serialization
format) and the literal `YYYY-MM-DD HH:MM:SS` form; chrono's wider RFC 3339
acceptance (numeric offsets, fractional and leap seconds) is not modelled, so
rejection is stated only at inputs chrono also rejects. -/

/-- Gregorian month lengths, as `chrono` enforces them. -/
def daysInMonth (y m : Nat) : Nat :=
  if m = 2 then
    if (y % 4 = 0 ∧ ¬y % 100 = 0) ∨ y % 400 = 0 then 29 else 28
  else if m = 4 ∨ m = 6 ∨ m = 9 ∨ m = 11 then 30 else 31

structure DateTimeUtc where
  year : Nat
  month : Nat
  day : Nat
  hour : Nat
  minute : Nat
  second : Nat
deriving DecidableEq, Repr

/-- The calendar validity every `chrono::DateTime<Utc>` value at whole-second
precision satisfies (4-digit years cover the remote listing's domain). -/
def DateTimeUtc.Valid (t : DateTimeUtc) : Prop :=
  t.year ≤ 9999 ∧ 1 ≤ t.month ∧ t.month ≤ 12 ∧ 1 ≤ t.day ∧
    t.day ≤ daysInMonth t.year t.month ∧
    t.hour ≤ 23 ∧ t.minute ≤ 59 ∧ t.second ≤ 59

instance (t : DateTimeUtc) : Decidable t.Valid := by
  unfold DateTimeUtc.Valid; infer_instance

/-- Two-digit zero-padded decimal rendering (for values `< 100`). -/
def pad2 (n : Nat) : List Char :=
  [Nat.digitChar (n / 10 % 10), Nat.digitChar (n % 10)]

/-- Four-digit zero-padded decimal rendering (for values `< 10000`). -/
def pad4 (n : Nat) : List Char :=
  [Nat.digitChar (n / 1000 % 10), Nat.digitChar (n / 100 % 10),
   Nat.digitChar (n / 10 % 10), Nat.digitChar (n % 10)]

/-- RFC 3339 rendering used by chrono's serde serializer for `DateTime<Utc>`
at whole-second precision: `YYYY-MM-DDTHH:MM:SSZ`. -/
def formatRfc3339 (t : DateTimeUtc) : String :=
  ⟨pad4 t.year ++ '-' :: pad2 t.month ++ '-' :: pad2 t.day ++
    'T' :: pad2 t.hour ++ ':' :: pad2 t.minute ++ ':' :: pad2 t.second ++ ['Z']⟩

/-- The literal `YYYY-MM-DD HH:MM:SS` rendering of the second accepted wire
format. -/
def formatSpace (t : DateTimeUtc) : String :=
  ⟨pad4 t.year ++ '-' :: pad2 t.month ++ '-' :: pad2 t.day ++
    ' ' :: pad2 t.hour ++ ':' :: pad2 t.minute ++ ':' :: pad2 t.second⟩

/-- Decode two digit chars. -/
def digits2 (a b : Char) : Option Nat :=
  if a.isDigit && b.isDigit then some ((a.toNat - 48) * 10 + (b.toNat - 48))
  else none

/-- Decode four digit chars. -/
def digits4 (a b c d : Char) : Option Nat :=
  if a.isDigit && b.isDigit && c.isDigit && d.isDigit then
    some (((a.toNat - 48) * 10 + (b.toNat - 48)) * 100 +
      ((c.toNat - 48) * 10 + (d.toNat - 48)))
  else none

/-- Shared shape of both accepted timestamp formats: a fixed-width date, the
separator `mid`, a fixed-width clock time, and `tail` (`"Z"` or nothing). -/
def parseDTCore (mid : Char) (tail : List Char) (s : List Char) :
    Option DateTimeUtc :=
  match s with
  | y1 :: y2 :: y3 :: y4 :: q1 :: m1 :: m2 :: q2 :: d1 :: d2 ::
      c :: h1 :: h2 :: q3 :: n1 :: n2 :: q4 :: s1 :: s2 :: rest =>
    if q1 = '-' ∧ q2 = '-' ∧ c = mid ∧ q3 = ':' ∧ q4 = ':' ∧ rest = tail then
      match digits4 y1 y2 y3 y4, digits2 m1 m2, digits2 d1 d2,
          digits2 h1 h2, digits2 n1 n2, digits2 s1 s2 with
      | some y, some mo, some d, some h, some n, some sec =>
        if 1 ≤ mo ∧ mo ≤ 12 ∧ 1 ≤ d ∧ d ≤ daysInMonth y mo ∧
            h ≤ 23 ∧ n ≤ 59 ∧ sec ≤ 59 then
          some ⟨y, mo, d, h, n, sec⟩
        else none
      | _, _, _, _, _, _ => none
    else none
  | _ => none

/-- Model of `DateTime::parse_from_rfc3339` followed by `.with_timezone(&Utc)`,
on the UTC (`Z`-suffixed) whole-second fragment this program's data uses. -/
def parseRfc3339 (s : String) : Option DateTimeUtc :=
  parseDTCore 'T' ['Z'] s.data

/-- Model of `NaiveDateTime::parse_from_str(s, "%Y-%m-%d %H:%M:%S")` followed
by `.and_utc()`. -/
def parseSpaceFormat (s : String) : Option DateTimeUtc :=
  parseDTCore ' ' [] s.data

/-! ### Listing entries (`response.rs`) -/

/-- `SpcJsonResponse`: one normalized remote directory-listing record.
`size` is kept as a string (as in the source); `download_count` is a `u32`
modelled as `Nat` (bound stated where it matters). -/
structure SpcJsonResponse where
  is_dir : Bool
  full_path : String
  name : String
  size : String
  last_modified : DateTimeUtc
  download_count : Nat
  is_parent : Bool
deriving DecidableEq, Repr

/-- `SpcJsonResponse::version()`: `None` unless the name ends in `.tar.gz` or
`.zip`; otherwise the semver parse of the second hyphen-separated segment,
`None` when the segment is missing or does not parse. -/
def SpcJsonResponse.version (r : SpcJsonResponse) : Option SemVer :=
  if !(endsWithS ".tar.gz" r.name || endsWithS ".zip" r.name) then none
  else
    match (splitCh '-' r.name.data).get? 1 with
    | none => none
    | some seg => SemVer.parse ⟨seg⟩

/-! ### Wire JSON and the tolerant deserializers (`response.rs`)

`serde_json`'s value type, restricted to what the listing endpoint produces
(integral numbers modelled as `Int`; non-integral numbers are not exercised by
this API and would fail every branch below anyway). -/

inductive Json where
  | str (s : String)
  | num (n : Int)
  | bool (b : Bool)
  | arr (xs : List Json)
  | obj (fields : List (String × Json))
  | null

/-- `deserialize_size`: untagged `String | u64`; a string is kept verbatim, a
`u64` is rendered to its decimal string; anything else is a decode error. -/
def deserialize_size : Json → Option String
  | .str s => some s
  | .num n => if 0 ≤ n ∧ n < 2 ^ 64 then some (Nat.repr n.toNat) else none
  | _ => none

/-- `deserialize_datetime`: try RFC 3339 first, then `"%Y-%m-%d %H:%M:%S"`
interpreted as UTC; anything else is a decode error. -/
def deserialize_datetime : Json → Option DateTimeUtc
  | .str s =>
    match parseRfc3339 s with
    | some t => some t
    | none => parseSpaceFormat s
  | _ => none

/-- Rust `str::parse::<u32>()`: optional leading `+`, one or more ASCII digits,
value below `2^32`; everything else fails. -/
def parseU32 (s : String) : Option Nat :=
  let ds := match s.data with
    | '+' :: rest => some rest
    | other => some other
  match ds with
  | some l =>
    if !l.isEmpty && l.all (·.isDigit) && digitsVal l < 2 ^ 32 then
      some (digitsVal l)
    else none
  | none => none

/-- `deserialize_download_count`: untagged `String | u32`; an empty string is
`0`, a non-empty string must parse as `u32`, a number must fit `u32`. -/
def deserialize_download_count : Json → Option Nat
  | .str s => if s = "" then some 0 else parseU32 s
  | .num n => if 0 ≤ n ∧ n < 2 ^ 32 then some n.toNat else none
  | _ => none

/-- Association lookup in a JSON object (serde matches fields by name and
ignores unknown fields). -/
def getField : List (String × Json) → String → Option Json
  | [], _ => none
  | (k, v) :: rest, f => if k = f then some v else getField rest f

/-- Decode a JSON bool (serde `bool`). -/
def asBool : Json → Option Bool
  | .bool b => some b
  | _ => none

/-- Decode a JSON string (serde `String`). -/
def asStr : Json → Option String
  | .str s => some s
  | _ => none

/-- Serde-derived `Deserialize` for `SpcJsonResponse`: required fields
`is_dir`, `full_path`, `name`, `size`, `last_modified`, `is_parent`;
`download_count` has `#[serde(default)]`, so a missing field is `0`. -/
def decodeEntry (j : Json) : Option SpcJsonResponse :=
  match j with
  | .obj fields => do
    let is_dir ← asBool (← getField fields "is_dir")
    let full_path ← asStr (← getField fields "full_path")
    let name ← asStr (← getField fields "name")
    let size ← deserialize_size (← getField fields "size")
    let last_modified ← deserialize_datetime (← getField fields "last_modified")
    let download_count ←
      match getField fields "download_count" with
      | none => some 0
      | some v => deserialize_download_count v
    let is_parent ← asBool (← getField fields "is_parent")
    some ⟨is_dir, full_path, name, size, last_modified, download_count, is_parent⟩
  | _ => none

/-- Serde-derived `Serialize` for `SpcJsonResponse` (fields in declaration
order; `size` is a string field, `last_modified` serializes via chrono's
RFC 3339 rendering, `download_count` as a number). -/
def encodeEntry (r : SpcJsonResponse) : Json :=
  .obj [("is_dir", .bool r.is_dir),
        ("full_path", .str r.full_path),
        ("name", .str r.name),
        ("size", .str r.size),
        ("last_modified", .str (formatRfc3339 r.last_modified)),
        ("download_count", .num (r.download_count : Int)),
        ("is_parent", .bool r.is_parent)]

/-- `Vec<SpcJsonResponse>` deserialization: a JSON array, every element must
decode (first failure aborts). -/
def decodeSnapshot : Json → Option (List SpcJsonResponse)
  | .arr xs => xs.mapM decodeEntry
  | _ => none

/-- `Vec<SpcJsonResponse>` serialization. -/
def encodeSnapshot (entries : List SpcJsonResponse) : Json :=
  .arr (entries.map encodeEntry)

/-- The well-formedness every `SpcJsonResponse` built by the Rust code has by
construction of its field types: `last_modified` is a real `DateTime<Utc>`
(valid calendar fields) and `download_count` fits in `u32`. -/
def EntryWf (r : SpcJsonResponse) : Prop :=
  r.last_modified.Valid ∧ r.download_count < 2 ^ 32

instance (r : SpcJsonResponse) : Decidable (EntryWf r) := by
  unfold EntryWf; infer_instance

/-! ### Build categories (`category.rs`) -/

inductive BuildCategory where
  | Bulk
  | Common
  | Minimal
  | WinMin
  | WinMax
deriving DecidableEq, Repr

/-- strum `Display` with `serialize_all = "kebab-case"`. -/
def BuildCategory.str : BuildCategory → String
  | .Bulk => "bulk"
  | .Common => "common"
  | .Minimal => "minimal"
  | .WinMin => "win-min"
  | .WinMax => "win-max"

/-- `BuildCategory::default_for_os`, with the compile-time `std::env::consts::OS`
made an explicit parameter. -/
def BuildCategory.default_for_os (hostOS : String) : BuildCategory :=
  if hostOS = "windows" then .WinMax else .Bulk

/-- `BuildCategory::all()`, in source order. -/
def BuildCategory.all : List BuildCategory :=
  [.Bulk, .Common, .Minimal, .WinMin, .WinMax]

/-! ### Query options and URL derivation (`api.rs`)

The compile-time constants `std::env::consts::OS` / `ARCH` are explicit
parameters `hostOS` / `hostArch`; the two `panic!` branches for unsupported
hosts are modelled as `none`. -/

structure ApiOptions where
  category : Option BuildCategory
  version : Option SemVer
  os : Option String
  arch : Option String
  build_type : Option String

/-- `ApiOptions::category()`. -/
def ApiOptions.categoryD (o : ApiOptions) (hostOS : String) : BuildCategory :=
  o.category.getD (BuildCategory.default_for_os hostOS)

/-- `ApiOptions::os()`; `none` models the `panic!` on an unsupported host OS. -/
def ApiOptions.osStr (o : ApiOptions) (hostOS : String) : Option String :=
  match o.os with
  | some s => some s
  | none =>
    if hostOS = "linux" then some "linux"
    else if hostOS = "macos" then some "macos"
    else if hostOS = "windows" then some "win"
    else none

/-- `ApiOptions::arch()`; `none` models the `panic!` on an unsupported host
architecture. -/
def ApiOptions.archStr (o : ApiOptions) (hostArch : String) : Option String :=
  match o.arch with
  | some s => some s
  | none =>
    if hostArch = "x86_64" ∨ hostArch = "x86" then some "x86_64"
    else if hostArch = "aarch64" ∨ hostArch = "arm" then some "aarch64"
    else none

/-- `ApiOptions::build_type()` (defaults to `"cli"`). -/
def ApiOptions.buildType (o : ApiOptions) : String :=
  o.build_type.getD "cli"

/-- `ApiOptions::category_path()`. -/
def ApiOptions.category_path (o : ApiOptions) (hostOS : String) : String :=
  match o.categoryD hostOS with
  | .Bulk => "bulk"
  | .Common => "common"
  | .Minimal => "minimal"
  | .WinMin => "windows/spc-min"
  | .WinMax => "windows/spc-max"

/-- `ApiOptions::file_name()`: the version renders as `""` when unset; the
windows branch never consults OS/arch, the tar branch does (so only it can
panic — hence only it is `Option`-guarded). -/
def ApiOptions.file_name (o : ApiOptions) (hostOS hostArch : String) :
    Option String :=
  let version := (o.version.map SemVer.str).getD ""
  match o.categoryD hostOS with
  | .WinMin | .WinMax =>
    some ("php-" ++ version ++ "-" ++ o.buildType ++ "-win.zip")
  | _ => do
    let osS ← o.osStr hostOS
    let archS ← o.archStr hostArch
    some ("php-" ++ version ++ "-" ++ o.buildType ++ "-" ++ osS ++ "-" ++
      archS ++ ".tar.gz")

/-- `ApiOptions::to_url()`: the listing URL. -/
def ApiOptions.to_url (o : ApiOptions) (baseUrl : String) (hostOS : String) :
    String :=
  baseUrl ++ "/" ++ o.category_path hostOS ++ "?format=json"

/-- `ApiOptions::to_download_url()`. -/
def ApiOptions.to_download_url (o : ApiOptions) (baseUrl hostOS hostArch : String) :
    Option String := do
  let fn ← o.file_name hostOS hostArch
  some (baseUrl ++ "/" ++ o.category_path hostOS ++ "/" ++ fn)

/-- `ApiOptions::with_version()`. -/
def ApiOptions.with_version (o : ApiOptions) (v : SemVer) : ApiOptions :=
  { o with version := some v }

/-- `Api::download_url()`: substitute the resolved version, then form the
download URL. -/
def Api.download_url (o : ApiOptions) (baseUrl hostOS hostArch : String)
    (v : SemVer) : Option String :=
  (o.with_version v).to_download_url baseUrl hostOS hostArch

/-! ### Version resolution (`Api::fetch_latest_version`) -/

/-- The `for` loop of `fetch_latest_version`: keep the running value unless a
later version is strictly higher. -/
def highestFrom (init : SemVer) : List SemVer → SemVer
  | [] => init
  | v :: vs => highestFrom (if init.ltb v then v else init) vs

/-- The filter closure inside `Api::fetch_latest_version`, verbatim from the
source: `version_match && name_match`. -/
def keepEntry (cat : BuildCategory) (osN archN btN : String)
    (bound : Option SemVer) (r : SpcJsonResponse) : Bool :=
  let version_match :=
    match r.version with
    | some v =>
      match bound with
      | some b => v.major == b.major && v.minor == b.minor
      | none => true
    | none => false
  let name_match :=
    match cat with
    | .WinMin | .WinMax =>
      containsS btN r.name && endsWithS "-win.zip" r.name
    | _ =>
      containsS osN r.name && containsS archN r.name && containsS btN r.name
  version_match && name_match

/-- `Api::fetch_latest_version`, applied to the entry list `data` obtained from
`fetch_versions`: both needles are computed up front (so an unsupported host
panics — `none` — even for windows categories), entries are filtered, their
versions collected, and the highest is folded out of `0.0.0`. -/
def fetch_latest_version (o : ApiOptions) (hostOS hostArch : String)
    (data : List SpcJsonResponse) : Option SemVer := do
  let osN ← o.osStr hostOS
  let archN ← o.archStr hostArch
  let btN := o.buildType
  let bound := o.version
  let cat := o.categoryD hostOS
  let versions :=
    (data.filter (keepEntry cat osN archN btN bound)).filterMap
      SpcJsonResponse.version
  some (highestFrom ⟨0, 0, 0⟩ versions)

/-! ### The on-disk cache (`cache.rs`)

The cache directory is modelled as an association list from file name to
contents.  A snapshot file holds its parsed JSON document (`serde_json`'s
text round-trip is the library's; the repository's own code is the tree-level
encode/decode above); the `.version` marker holds plain text.  Modification
times live in a parallel map of file name to day number, compared against
`today`; injected faults (`rmFail`, `wrFail`) model `remove_file` and
`create_dir_all`/`File::create`/write I/O errors on the named paths. -/

inductive FileData where
  | json (j : Json)
  | text (t : String)

/-- Association-list lookup by file name. -/
def lookupA {β : Type} : List (String × β) → String → Option β
  | [], _ => none
  | (g, d) :: rest, f => if g = f then some d else lookupA rest f

/-- Remove every binding of a file name. -/
def removeA {β : Type} : List (String × β) → String → List (String × β)
  | [], _ => []
  | (g, d) :: rest, f =>
    if g = f then removeA rest f else (g, d) :: removeA rest f

/-- Overwrite (or create) a binding. -/
def upsertA {β : Type} (l : List (String × β)) (f : String) (d : β) :
    List (String × β) :=
  (f, d) :: removeA l f

structure CacheSt where
  files : List (String × FileData)
  mtimes : List (String × Nat)
  today : Nat
  rmFail : List String
  wrFail : List String

namespace Cache

/-- `str::to_lowercase`, modelled per char (all strings involved are ASCII). -/
def toLowerS (s : String) : String := ⟨s.data.map Char.toLower⟩

/-- `Cache::cache_file_path`, reduced to the file name inside the cache dir:
`format!("{}.json", category.to_string().to_lowercase())`. -/
def catFileName (c : BuildCategory) : String :=
  toLowerS c.str ++ ".json"

/-- The `.version` marker file name (`Cache::version_file_path`). -/
def versionFileName : String := ".version"

/-- `path.exists()`. -/
def fileExists (s : CacheSt) (f : String) : Bool :=
  (lookupA s.files f).isSome

/-- `fs::remove_file`: error on an injected fault, otherwise drop the file. -/
def removeFile (s : CacheSt) (f : String) : Except Unit CacheSt :=
  if f ∈ s.rmFail then .error ()
  else .ok { s with files := removeA s.files f }

/-- Reading the `.version` marker: `File::open` + `read_to_string`; absence or
unreadable (non-text) contents is `none`. -/
def readMarker (s : CacheSt) : Option String :=
  match lookupA s.files versionFileName with
  | some (.text t) => some t
  | _ => none

/-- `Cache::write_version`: best-effort create-dir + create + write; failures
are silently ignored. -/
def writeVersion (ver : String) (s : CacheSt) : CacheSt :=
  if versionFileName ∈ s.wrFail then s
  else { s with files := upsertA s.files versionFileName (.text ver) }

/-- The `None` arm of `Cache::clear`: iterate the five categories in order,
removing each existing file; the `?` on `remove_file` aborts on the first
error, keeping the removals already performed. -/
def clearAll (s : CacheSt) (acc : Nat) :
    List BuildCategory → Except Unit Nat × CacheSt
  | [] => (.ok acc, s)
  | c :: cs =>
    if fileExists s (catFileName c) then
      match removeFile s (catFileName c) with
      | .error _ => (.error (), s)
      | .ok s' => clearAll s' (acc + 1) cs
    else clearAll s acc cs

/-- `Cache::clear(category)`. -/
def clear (s : CacheSt) : Option BuildCategory → Except Unit Nat × CacheSt
  | some cat =>
    if fileExists s (catFileName cat) then
      match removeFile s (catFileName cat) with
      | .error _ => (.error (), s)
      | .ok s' => (.ok 1, s')
    else (.ok 0, s)
  | none => clearAll s 0 BuildCategory.all

/-- `Cache::check_version`, run once at `Cache::new`: keep the state when the
trimmed marker matches the running tool's version; otherwise clear all
category files (result ignored) and rewrite the marker. -/
def checkVersion (ver : String) (s : CacheSt) : CacheSt :=
  match readMarker s with
  | some stored =>
    if stored.trim = ver then s
    else writeVersion ver (clear s none).2
  | none => writeVersion ver (clear s none).2

/-- `Cache::is_valid`: the file exists and its modification date equals
today's date; any stat failure (no recorded mtime) is `false`. -/
def isValid (s : CacheSt) (cat : BuildCategory) : Bool :=
  fileExists s (catFileName cat) &&
    match lookupA s.mtimes (catFileName cat) with
    | some d => d == s.today
    | none => false

/-- `Cache::read`: `none` on any open/read/decode failure. -/
def read (s : CacheSt) (cat : BuildCategory) : Option (List SpcJsonResponse) :=
  match lookupA s.files (catFileName cat) with
  | some (.json j) => decodeSnapshot j
  | _ => none

/-- `Cache::write`: create the directory and the file, serialize the entries;
an I/O error is surfaced to the caller. -/
def write (s : CacheSt) (cat : BuildCategory) (entries : List SpcJsonResponse) :
    Except Unit CacheSt :=
  let f := catFileName cat
  if f ∈ s.wrFail then .error ()
  else .ok { s with
    files := upsertA s.files f (.json (encodeSnapshot entries)),
    mtimes := upsertA s.mtimes f s.today }

end Cache

/-! ### `Api::fetch_versions`

One call: construct the cache handle (which runs `check_version` with the
running tool's version `ver`), serve a valid cached snapshot unless bypassed,
otherwise GET the listing (`net` is the transport's outcome: an error or the
response body as JSON), decode it, best-effort write the cache (failure logged,
not propagated), and return the fresh data. -/

def fetch_versions (o : ApiOptions) (hostOS : String) (bypassCache : Bool)
    (ver : String) (net : Except Unit Json) (s : CacheSt) :
    Except Unit (List SpcJsonResponse × Bool) × CacheSt :=
  let cat := o.categoryD hostOS
  let s := Cache.checkVersion ver s
  let cached :=
    if !bypassCache && Cache.isValid s cat then Cache.read s cat else none
  match cached with
  | some data => (.ok (data, true), s)
  | none =>
    match net with
    | .error _ => (.error (), s)
    | .ok body =>
      match decodeSnapshot body with
      | none => (.error (), s)
      | some data =>
        match Cache.write s cat data with
        | .error _ => (.ok (data, false), s)
        | .ok s' => (.ok (data, false), s')

/-! ### Spec-side definitions

These follow the wording of the specification (not the source) and are compared
with the source-derived definitions in the refinement theorems below. -/

/-- The platform name pattern of claim C1, following the spec's words: for
`WinMin`/`WinMax` the name contains the build-type needle and ends with
`-win.zip`; otherwise it contains the OS, arch and build-type needles, as plain
substring tests. -/
def NameMatchesSpec (cat : BuildCategory) (osN archN btN : String)
    (name : String) : Prop :=
  match cat with
  | .WinMin | .WinMax =>
    containsS btN name = true ∧ endsWithS "-win.zip" name = true
  | _ =>
    containsS osN name = true ∧ containsS archN name = true ∧
      containsS btN name = true

/-- The survivor predicate of claim C1, following the spec's words: the derived
version exists, the name matches the category's platform pattern, and when a
version bound is set the version's major and minor equal the bound's exactly
(patch ignored). -/
def SurvivesSpec (cat : BuildCategory) (osN archN btN : String)
    (bound : Option SemVer) (r : SpcJsonResponse) : Prop :=
  ∃ v, r.version = some v ∧ NameMatchesSpec cat osN archN btN r.name ∧
    (∀ b, bound = some b → v.major = b.major ∧ v.minor = b.minor)

/-- The categories whose cache file currently exists, in `all()` order. -/
def cachedCats (s : CacheSt) : List BuildCategory :=
  BuildCategory.all.filter (fun c => Cache.fileExists s (Cache.catFileName c))

/-! ## Helper lemmas -/

theorem splitCh_not_mem (sep : Char) (l : List Char) (h : sep ∉ l) :
    splitCh sep l = [l] := by
  induction l with
  | nil => rfl
  | cons c cs ih =>
    have hc : ¬c = sep := fun hcs => h (hcs ▸ List.mem_cons_self c cs)
    have hcs : sep ∉ cs := fun hm => h (List.mem_cons_of_mem c hm)
    simp only [splitCh, if_neg hc, ih hcs]

theorem splitCh_append_sep (sep : Char) (l r : List Char) (h : sep ∉ l) :
    splitCh sep (l ++ sep :: r) = l :: splitCh sep r := by
  induction l with
  | nil => simp [splitCh]
  | cons c cs ih =>
    have hc : ¬c = sep := fun hcs => h (hcs ▸ List.mem_cons_self c cs)
    have hcs : sep ∉ cs := fun hm => h (List.mem_cons_of_mem c hm)
    have : splitCh sep (c :: (cs ++ sep :: r)) = (c :: cs) :: splitCh sep r := by
      simp only [splitCh, if_neg hc, ih hcs]
    simpa using this

theorem all_digit_not_mem (l : List Char) (c : Char)
    (hl : l.all (·.isDigit) = true) (hc : c.isDigit = false) : c ∉ l := by
  intro hm
  have := List.all_eq_true.mp hl c hm
  simp only [this] at hc
  exact Bool.true_eq_false.mp hc

theorem isNumericIdent_all_digit (l : List Char)
    (h : isNumericIdent l = true) : l.all (·.isDigit) = true := by
  unfold isNumericIdent at h
  simp only [Bool.and_eq_true] at h
  exact h.1.2

theorem parseNumeric_of_ident (l : List Char) (h : isNumericIdent l = true)
    (hb : digitsVal l < 2 ^ 64) :
    parseNumeric l = some (digitsVal l) := by
  unfold parseNumeric
  rw [if_pos ⟨h, hb⟩]

/-- A non-digit char other than `'.'` is not in `xs ++ '.' :: ys ++ '.' :: zs`
when `xs`, `ys`, `zs` are all-digit. -/
theorem not_mem_verSeg (c : Char) (xs ys zs : List Char)
    (hdx : xs.all (·.isDigit) = true) (hdy : ys.all (·.isDigit) = true)
    (hdz : zs.all (·.isDigit) = true) (hc : c.isDigit = false)
    (hne : ¬c = '.') : c ∉ xs ++ '.' :: ys ++ '.' :: zs := by
  intro hm
  rcases List.mem_append.mp hm with h1 | h1
  · rcases List.mem_append.mp h1 with h2 | h2
    · exact all_digit_not_mem xs c hdx hc h2
    · rcases List.mem_cons.mp h2 with h3 | h3
      · exact hne h3
      · exact all_digit_not_mem ys c hdy hc h3
  · rcases List.mem_cons.mp h1 with h2 | h2
    · exact hne h2
    · exact all_digit_not_mem zs c hdz hc h2

theorem digitChar_spec :
    ∀ k, k < 10 → (Nat.digitChar k).isDigit = true ∧
      (Nat.digitChar k).toNat = k + 48 := by decide

theorem digits2_pad (n : Nat) (h : n < 100) :
    digits2 (Nat.digitChar (n / 10 % 10)) (Nat.digitChar (n % 10)) = some n := by
  have h1 := digitChar_spec (n / 10 % 10) (Nat.mod_lt _ (by norm_num))
  have h2 := digitChar_spec (n % 10) (Nat.mod_lt _ (by norm_num))
  unfold digits2
  rw [if_pos (by simp [h1.1, h2.1]), h1.2, h2.2]
  congr 1
  omega

theorem digits4_pad (n : Nat) (h : n < 10000) :
    digits4 (Nat.digitChar (n / 1000 % 10)) (Nat.digitChar (n / 100 % 10))
      (Nat.digitChar (n / 10 % 10)) (Nat.digitChar (n % 10)) = some n := by
  have h1 := digitChar_spec (n / 1000 % 10) (Nat.mod_lt _ (by norm_num))
  have h2 := digitChar_spec (n / 100 % 10) (Nat.mod_lt _ (by norm_num))
  have h3 := digitChar_spec (n / 10 % 10) (Nat.mod_lt _ (by norm_num))
  have h4 := digitChar_spec (n % 10) (Nat.mod_lt _ (by norm_num))
  unfold digits4
  rw [if_pos (by simp [h1.1, h2.1, h3.1, h4.1]), h1.2, h2.2, h3.2, h4.2]
  congr 1
  omega

theorem daysInMonth_le (y m : Nat) : daysInMonth y m ≤ 31 := by
  unfold daysInMonth
  split
  · split <;> omega
  · split <;> omega

theorem parse_format_rfc (t : DateTimeUtc) (h : t.Valid) :
    parseRfc3339 (formatRfc3339 t) = some t := by
  obtain ⟨y, mo, d, hh, mi, s⟩ := t
  unfold DateTimeUtc.Valid at h
  dsimp only at h
  obtain ⟨h1, h2, h3, h4, h5, h6, h7, h8⟩ := h
  have hdm : daysInMonth y mo ≤ 31 := daysInMonth_le y mo
  unfold parseRfc3339 formatRfc3339 pad4 pad2
  simp only [List.cons_append, List.nil_append, List.append_assoc]
  simp only [parseDTCore]
  rw [if_pos (by simp)]
  rw [digits4_pad y (by omega), digits2_pad mo (by omega), digits2_pad d
    (by omega), digits2_pad hh (by omega), digits2_pad mi (by omega),
    digits2_pad s (by omega)]
  show (if 1 ≤ mo ∧ mo ≤ 12 ∧ 1 ≤ d ∧ d ≤ daysInMonth y mo ∧
      hh ≤ 23 ∧ mi ≤ 59 ∧ s ≤ 59 then
      some (DateTimeUtc.mk y mo d hh mi s) else none) = some ⟨y, mo, d, hh, mi, s⟩
  rw [if_pos ⟨h2, h3, h4, h5, h6, h7, h8⟩]

theorem parse_format_space (t : DateTimeUtc) (h : t.Valid) :
    parseSpaceFormat (formatSpace t) = some t := by
  obtain ⟨y, mo, d, hh, mi, s⟩ := t
  unfold DateTimeUtc.Valid at h
  dsimp only at h
  obtain ⟨h1, h2, h3, h4, h5, h6, h7, h8⟩ := h
  have hdm : daysInMonth y mo ≤ 31 := daysInMonth_le y mo
  unfold parseSpaceFormat formatSpace pad4 pad2
  simp only [List.cons_append, List.nil_append, List.append_assoc]
  simp only [parseDTCore]
  rw [if_pos (by simp)]
  rw [digits4_pad y (by omega), digits2_pad mo (by omega), digits2_pad d
    (by omega), digits2_pad hh (by omega), digits2_pad mi (by omega),
    digits2_pad s (by omega)]
  show (if 1 ≤ mo ∧ mo ≤ 12 ∧ 1 ≤ d ∧ d ≤ daysInMonth y mo ∧
      hh ≤ 23 ∧ mi ≤ 59 ∧ s ≤ 59 then
      some (DateTimeUtc.mk y mo d hh mi s) else none) = some ⟨y, mo, d, hh, mi, s⟩
  rw [if_pos ⟨h2, h3, h4, h5, h6, h7, h8⟩]

theorem decode_encode_entry (r : SpcJsonResponse) (h : EntryWf r) :
    decodeEntry (encodeEntry r) = some r := by
  obtain ⟨hv, hc⟩ := h
  have step : decodeEntry (encodeEntry r) =
      (deserialize_datetime (.str (formatRfc3339 r.last_modified))).bind
        (fun lm =>
          (deserialize_download_count (.num (r.download_count : Int))).bind
            (fun dc => some ⟨r.is_dir, r.full_path, r.name, r.size, lm, dc,
              r.is_parent⟩)) := rfl
  have hdt : deserialize_datetime (.str (formatRfc3339 r.last_modified)) =
      some r.last_modified := by
    simp only [deserialize_datetime, parse_format_rfc r.last_modified hv]
  have hdc : deserialize_download_count (.num (r.download_count : Int)) =
      some r.download_count := by
    simp only [deserialize_download_count]
    rw [if_pos (by omega)]
    simp
  rw [step, hdt, hdc]
  rfl

theorem decode_encode_snapshot (entries : List SpcJsonResponse)
    (h : ∀ r ∈ entries, EntryWf r) :
    decodeSnapshot (encodeSnapshot entries) = some entries := by
  unfold decodeSnapshot encodeSnapshot
  induction entries with
  | nil => rfl
  | cons r rs ih =>
    simp only [List.map_cons, List.mapM_cons,
      decode_encode_entry r (h r (List.mem_cons_self r rs)), Option.pure_def,
      Option.bind_eq_bind, Option.some_bind]
    rw [show (List.map encodeEntry rs).mapM decodeEntry = some rs from
      ih (fun x hx => h x (List.mem_cons_of_mem r hx))]
    rfl

/-! ## Claims -/

/-- **C3.** `version()` returns none unless the entry's name ends with
`.tar.gz` or `.zip`; with a recognized extension it parses the second
hyphen-separated segment, returning none on parse failure; and for every name
of the shape `php-X.Y.Z-…` with a recognized extension (X, Y, Z numeric
identifiers) it returns exactly `X.Y.Z`. -/
theorem C3_version_extraction :
    (∀ r : SpcJsonResponse,
      ¬(endsWithS ".tar.gz" r.name = true ∨ endsWithS ".zip" r.name = true) →
      r.version = none) ∧
    (∀ (r : SpcJsonResponse) (seg : List Char),
      (endsWithS ".tar.gz" r.name = true ∨ endsWithS ".zip" r.name = true) →
      (splitCh '-' r.name.data).get? 1 = some seg →
      SemVer.parse ⟨seg⟩ = none → r.version = none) ∧
    (∀ (r : SpcJsonResponse) (seg : List Char) (v : SemVer),
      (endsWithS ".tar.gz" r.name = true ∨ endsWithS ".zip" r.name = true) →
      (splitCh '-' r.name.data).get? 1 = some seg →
      SemVer.parse ⟨seg⟩ = some v → r.version = some v) ∧
    (∀ (r : SpcJsonResponse) (xs ys zs rest : List Char),
      isNumericIdent xs = true → isNumericIdent ys = true →
      isNumericIdent zs = true →
      digitsVal xs < 2 ^ 64 → digitsVal ys < 2 ^ 64 → digitsVal zs < 2 ^ 64 →
      r.name.data = "php-".data ++ xs ++ '.' :: ys ++ '.' :: zs ++ '-' :: rest →
      (endsWithS ".tar.gz" r.name = true ∨ endsWithS ".zip" r.name = true) →
      r.version = some ⟨digitsVal xs, digitsVal ys, digitsVal zs⟩) := by
  refine ⟨?_, ?_, ?_, ?_⟩
  · intro r h
    have ha : endsWithS ".tar.gz" r.name = false := by
      cases hx : endsWithS ".tar.gz" r.name
      · rfl
      · exact absurd (Or.inl hx) h
    have hb : endsWithS ".zip" r.name = false := by
      cases hx : endsWithS ".zip" r.name
      · rfl
      · exact absurd (Or.inr hx) h
    unfold SpcJsonResponse.version
    rw [if_pos (by simp [ha, hb])]
  · intro r seg hext hseg hparse
    unfold SpcJsonResponse.version
    rw [if_neg (by rcases hext with h1 | h1 <;> simp [h1]), hseg]
    exact hparse
  · intro r seg v hext hseg hparse
    unfold SpcJsonResponse.version
    rw [if_neg (by rcases hext with h1 | h1 <;> simp [h1]), hseg]
    exact hparse
  · intro r xs ys zs rest hxs hys hzs hbx hby hbz hname hext
    have hdx := isNumericIdent_all_digit xs hxs
    have hdy := isNumericIdent_all_digit ys hys
    have hdz := isNumericIdent_all_digit zs hzs
    have hdotx : '.' ∉ xs := all_digit_not_mem xs '.' hdx (by decide)
    have hdoty : '.' ∉ ys := all_digit_not_mem ys '.' hdy (by decide)
    have hdotz : '.' ∉ zs := all_digit_not_mem zs '.' hdz (by decide)
    have hsplit : splitCh '-' r.name.data =
        ['p', 'h', 'p'] :: (xs ++ '.' :: ys ++ '.' :: zs) :: splitCh '-' rest := by
      rw [hname]
      have h1 : "php-".data ++ xs ++ '.' :: ys ++ '.' :: zs ++ '-' :: rest =
          ['p', 'h', 'p'] ++ '-' :: ((xs ++ '.' :: ys ++ '.' :: zs) ++ '-' :: rest) := by
        simp
      rw [h1, splitCh_append_sep '-' _ _ (by decide),
        splitCh_append_sep '-' _ _ (not_mem_verSeg '-' xs ys zs hdx hdy hdz
          (by decide) (by decide))]
    have hparse : SemVer.parse ⟨xs ++ '.' :: ys ++ '.' :: zs⟩ =
        some ⟨digitsVal xs, digitsVal ys, digitsVal zs⟩ := by
      unfold SemVer.parse
      have hd : (String.mk (xs ++ '.' :: ys ++ '.' :: zs)).data =
          xs ++ '.' :: (ys ++ '.' :: zs) := by simp
      rw [hd, splitCh_not_mem '+' _ (by
        intro hm
        exact not_mem_verSeg '+' xs ys zs hdx hdy hdz (by decide) (by decide)
          (by simpa [List.append_assoc] using hm))]
      show parseCore (xs ++ '.' :: (ys ++ '.' :: zs)) = _
      unfold parseCore
      rw [splitCh_append_sep '.' _ _ hdotx, splitCh_append_sep '.' _ _ hdoty,
        splitCh_not_mem '.' zs hdotz]
      simp [parseNumeric_of_ident xs hxs hbx, parseNumeric_of_ident ys hys hby,
        parseNumeric_of_ident zs hzs hbz]
    unfold SpcJsonResponse.version
    rw [if_neg (by rcases hext with h1 | h1 <;> simp [h1]), hsplit]
    exact hparse

/-- Witness for C3 at a concrete bulk-style file name. -/
theorem C3_version_extraction_witness :
    (SpcJsonResponse.mk false "" "php-8.4.10-cli-linux-x86_64.tar.gz" "0"
      ⟨2024, 1, 2, 3, 4, 5⟩ 0 false).version = some ⟨8, 4, 10⟩ := by
  have h := C3_version_extraction.2.2.2
    (SpcJsonResponse.mk false "" "php-8.4.10-cli-linux-x86_64.tar.gz" "0"
      ⟨2024, 1, 2, 3, 4, 5⟩ 0 false)
    ['8'] ['4'] ['1', '0'] "cli-linux-x86_64.tar.gz".data
    (by decide) (by decide) (by decide) (by decide) (by decide) (by decide)
    (by decide) (Or.inl (by decide))
  have hv : digitsVal ['8'] = 8 ∧ digitsVal ['4'] = 4 ∧
      digitsVal ['1', '0'] = 10 := by decide
  rw [h, hv.1, hv.2.1, hv.2.2]

theorem strAppendAssoc (a b c : String) : a ++ b ++ c = a ++ (b ++ c) := by
  apply String.ext
  simp [String.data_append]

theorem file_name_win (o : ApiOptions) (v : SemVer) (hostOS hostArch : String)
    (h : o.categoryD hostOS = .WinMin ∨ o.categoryD hostOS = .WinMax) :
    (o.with_version v).file_name hostOS hostArch =
      some ("php-" ++ v.str ++ "-" ++ o.buildType ++ "-win.zip") := by
  unfold ApiOptions.file_name
  have hc : (o.with_version v).categoryD hostOS = o.categoryD hostOS := rfl
  rw [hc]
  rcases h with h | h <;> rw [h] <;> rfl

theorem file_name_tar (o : ApiOptions) (v : SemVer) (hostOS hostArch : String)
    (osS archS : String)
    (h : o.categoryD hostOS = .Bulk ∨ o.categoryD hostOS = .Common ∨
      o.categoryD hostOS = .Minimal)
    (hos : o.osStr hostOS = some osS) (harch : o.archStr hostArch = some archS) :
    (o.with_version v).file_name hostOS hostArch =
      some ("php-" ++ v.str ++ "-" ++ o.buildType ++ "-" ++ osS ++ "-" ++
        archS ++ ".tar.gz") := by
  unfold ApiOptions.file_name
  have hc : (o.with_version v).categoryD hostOS = o.categoryD hostOS := rfl
  have hos' : (o.with_version v).osStr hostOS = some osS := hos
  have harch' : (o.with_version v).archStr hostArch = some archS := harch
  rw [hc]
  rcases h with h | h | h <;> rw [h] <;> simp only [hos', harch'] <;> rfl

/-- **C2.** For every criteria with a resolved version the download URL is
`{base}/{category_path}/{filename}` with the category-dependent `filename`
scheme, and the two concrete end-to-end URLs of the spec hold for every base. -/
theorem C2_download_url (base hostOS hostArch : String) (o : ApiOptions)
    (v : SemVer) :
    ((o.categoryD hostOS = .WinMin ∨ o.categoryD hostOS = .WinMax) →
      Api.download_url o base hostOS hostArch v =
        some (base ++ "/" ++ o.category_path hostOS ++ "/" ++
          ("php-" ++ v.str ++ "-" ++ o.buildType ++ "-win.zip"))) ∧
    (∀ osS archS,
      (o.categoryD hostOS = .Bulk ∨ o.categoryD hostOS = .Common ∨
        o.categoryD hostOS = .Minimal) →
      o.osStr hostOS = some osS → o.archStr hostArch = some archS →
      Api.download_url o base hostOS hostArch v =
        some (base ++ "/" ++ o.category_path hostOS ++ "/" ++
          ("php-" ++ v.str ++ "-" ++ o.buildType ++ "-" ++ osS ++ "-" ++
            archS ++ ".tar.gz"))) ∧
    Api.download_url ⟨some .WinMax, none, none, none, some "cli"⟩ base hostOS
        hostArch ⟨8, 4, 10⟩ =
      some (base ++ "/windows/spc-max/php-8.4.10-cli-win.zip") ∧
    Api.download_url ⟨some .Common, none, some "linux", some "x86_64",
        some "cli"⟩ base hostOS hostArch ⟨8, 4, 10⟩ =
      some (base ++ "/common/php-8.4.10-cli-linux-x86_64.tar.gz") := by
  have hpath : ∀ (o' : ApiOptions) (w : SemVer),
      (o'.with_version w).category_path hostOS = o'.category_path hostOS :=
    fun _ _ => rfl
  have hwin : ∀ (o' : ApiOptions) (w : SemVer),
      (o'.categoryD hostOS = .WinMin ∨ o'.categoryD hostOS = .WinMax) →
      Api.download_url o' base hostOS hostArch w =
        some (base ++ "/" ++ o'.category_path hostOS ++ "/" ++
          ("php-" ++ w.str ++ "-" ++ o'.buildType ++ "-win.zip")) := by
    intro o' w h
    unfold Api.download_url ApiOptions.to_download_url
    rw [file_name_win o' w hostOS hostArch h]
    rfl
  have htar : ∀ (o' : ApiOptions) (w : SemVer) (osS archS : String),
      (o'.categoryD hostOS = .Bulk ∨ o'.categoryD hostOS = .Common ∨
        o'.categoryD hostOS = .Minimal) →
      o'.osStr hostOS = some osS → o'.archStr hostArch = some archS →
      Api.download_url o' base hostOS hostArch w =
        some (base ++ "/" ++ o'.category_path hostOS ++ "/" ++
          ("php-" ++ w.str ++ "-" ++ o'.buildType ++ "-" ++ osS ++ "-" ++
            archS ++ ".tar.gz")) := by
    intro o' w osS archS h hos harch
    unfold Api.download_url ApiOptions.to_download_url
    rw [file_name_tar o' w hostOS hostArch osS archS h hos harch]
    rfl
  refine ⟨hwin o v, htar o v, ?_, ?_⟩
  · rw [hwin ⟨some .WinMax, none, none, none, some "cli"⟩ ⟨8, 4, 10⟩
      (Or.inr rfl)]
    simp only [strAppendAssoc]
    congr 2
  · rw [htar ⟨some .Common, none, some "linux", some "x86_64", some "cli"⟩
      ⟨8, 4, 10⟩ "linux" "x86_64" (Or.inr (Or.inl rfl)) rfl rfl]
    simp only [strAppendAssoc]
    congr 2

/-- Witness for C2, discharging the windows-branch hypothesis at the concrete
WinMax criteria of the claim. -/
theorem C2_download_url_witness :
    Api.download_url ⟨some .WinMax, none, none, none, some "cli"⟩ "b" "linux"
        "x86_64" ⟨8, 4, 10⟩ =
      some ("b" ++ "/" ++
        (ApiOptions.mk (some .WinMax) none none none
          (some "cli")).category_path "linux" ++ "/" ++
        ("php-" ++ (SemVer.mk 8 4 10).str ++ "-" ++
          (ApiOptions.mk (some .WinMax) none none none (some "cli")).buildType ++
          "-win.zip")) :=
  (C2_download_url "b" "linux" "x86_64"
    ⟨some .WinMax, none, none, none, some "cli"⟩ ⟨8, 4, 10⟩).1 (Or.inr rfl)

/-- **C9.** `version()` is total and returns none whenever the name has fewer
than two hyphen-delimited segments, regardless of extension. -/
theorem C9_version_total_short_names :
    ∀ r : SpcJsonResponse, (splitCh '-' r.name.data).length < 2 →
      r.version = none := by
  intro r h
  unfold SpcJsonResponse.version
  split
  · rfl
  · have : (splitCh '-' r.name.data).get? 1 = none := by
      apply List.get?_eq_none.mpr
      omega
    rw [this]

/-- Witness for C9: a name with a recognized extension but no hyphen. -/
theorem C9_version_total_short_names_witness :
    (SpcJsonResponse.mk false "" "archive.zip" "0"
      ⟨2024, 1, 2, 3, 4, 5⟩ 0 false).version = none :=
  C9_version_total_short_names _ (by decide)

/-- **C5 counterexample.** The claim says `size` is normalized to an unsigned
integer, but the string branch of `deserialize_size` accepts any string
verbatim: `"not-a-number"` decodes successfully and is not a decimal numeral. -/
theorem C5_size_not_normalized_counterexample :
    deserialize_size (.str "not-a-number") = some "not-a-number" ∧
    "not-a-number".data.all (·.isDigit) = false := by
  constructor
  · rfl
  · decide

/-- **C5 (amended).** `size` accepts a JSON string verbatim (no numeric
normalization) or an unsigned 64-bit JSON number rendered to its decimal
string; `download_count` accepts string-or-number normalized to an unsigned
integer, with the empty string normalizing to `0` and a non-empty string that
does not parse as `u32` a decode error; `last_modified` accepts RFC 3339
timestamps and the literal `YYYY-MM-DD HH:MM:SS` format as UTC, while inputs
matching neither format are decode errors — shown here at representative
inputs chrono rejects too: a free-form date, an impossible calendar date
(Feb 30), an out-of-range month, and a non-string JSON value (the modelled
parsers cover chrono's acceptance on the two claimed formats only, so
rejection is not stated as a universal over the model's complement). -/
theorem C5_tolerant_decoders :
    (∀ s : String, deserialize_size (.str s) = some s) ∧
    (∀ n : Int, 0 ≤ n → n < 2 ^ 64 →
      deserialize_size (.num n) = some (Nat.repr n.toNat)) ∧
    deserialize_download_count (.str "") = some 0 ∧
    (∀ s : String, ¬s = "" → parseU32 s = none →
      deserialize_download_count (.str s) = none) ∧
    (∀ (s : String) (n : Nat), parseU32 s = some n →
      deserialize_download_count (.str s) = some n) ∧
    (∀ n : Int, 0 ≤ n → n < 2 ^ 32 →
      deserialize_download_count (.num n) = some n.toNat) ∧
    (∀ t : DateTimeUtc, t.Valid →
      deserialize_datetime (.str (formatRfc3339 t)) = some t) ∧
    (∀ t : DateTimeUtc, t.Valid →
      deserialize_datetime (.str (formatSpace t)) = some t) ∧
    deserialize_datetime (.str "Jan 2, 2024") = none ∧
    deserialize_datetime (.str "2024-02-30 00:00:00") = none ∧
    deserialize_datetime (.str "2024-13-01T00:00:00Z") = none ∧
    (∀ n : Int, deserialize_datetime (.num n) = none) := by
  refine ⟨fun s => rfl, ?_, ?_, ?_, ?_, ?_, ?_, ?_, ?_⟩
  · intro n h1 h2
    simp only [deserialize_size]
    rw [if_pos ⟨h1, h2⟩]
  · rfl
  · intro s hne hp
    simp only [deserialize_download_count]
    rw [if_neg hne, hp]
  · intro s n hp
    have hne : ¬s = "" := by
      intro he
      subst he
      exact Option.noConfusion hp
    simp only [deserialize_download_count]
    rw [if_neg hne, hp]
  · intro n h1 h2
    simp only [deserialize_download_count]
    rw [if_pos ⟨h1, h2⟩]
  · intro t hv
    simp only [deserialize_datetime, parse_format_rfc t hv]
  · intro t hv
    simp only [deserialize_datetime, parse_format_space t hv]
    cases hx : parseRfc3339 (formatSpace t) with
    | none => simp only [parse_format_space t hv]
    | some u =>
      exfalso
      unfold parseRfc3339 parseDTCore at hx
      unfold formatSpace pad4 pad2 at hx
      simp only [List.cons_append, List.nil_append, List.append_assoc] at hx
      rw [if_neg (by simp)] at hx
      exact Option.noConfusion hx
  · refine ⟨by decide, by decide, by decide, fun n => rfl⟩

/-- Witness for C5 (amended), applying the RFC 3339 clause at a concrete
timestamp. -/
theorem C5_tolerant_decoders_witness :
    deserialize_datetime (.str (formatRfc3339 ⟨2024, 1, 2, 3, 4, 5⟩)) =
      some ⟨2024, 1, 2, 3, 4, 5⟩ :=
  C5_tolerant_decoders.2.2.2.2.2.2.1 ⟨2024, 1, 2, 3, 4, 5⟩ (by decide)

/-- **C8.** Writing a snapshot for a category and reading that category back
yields the same sequence of entries (round-trip through the persisted
representation and the tolerant deserializers). -/
theorem C8_snapshot_roundtrip (s : CacheSt) (cat : BuildCategory)
    (entries : List SpcJsonResponse) (hwf : ∀ r ∈ entries, EntryWf r)
    (hw : Cache.catFileName cat ∉ s.wrFail) :
    ∃ s', Cache.write s cat entries = .ok s' ∧
      Cache.read s' cat = some entries := by
  refine ⟨_, by unfold Cache.write; rw [if_neg hw], ?_⟩
  unfold Cache.read
  have hl : lookupA (upsertA s.files (Cache.catFileName cat)
      (.json (encodeSnapshot entries))) (Cache.catFileName cat) =
      some (.json (encodeSnapshot entries)) := by
    unfold upsertA lookupA
    rw [if_pos rfl]
  rw [hl]
  show decodeSnapshot (encodeSnapshot entries) = some entries
  exact decode_encode_snapshot entries hwf

/-- Witness for C8 at a concrete entry list and empty cache state. -/
theorem C8_snapshot_roundtrip_witness :
    ∃ s', Cache.write ⟨[], [], 0, [], []⟩ BuildCategory.Common
        [⟨false, "/b", "php-8.4.10-cli-linux-x86_64.tar.gz", "123",
          ⟨2024, 1, 2, 3, 4, 5⟩, 7, false⟩] = .ok s' ∧
      Cache.read s' BuildCategory.Common =
        some [⟨false, "/b", "php-8.4.10-cli-linux-x86_64.tar.gz", "123",
          ⟨2024, 1, 2, 3, 4, 5⟩, 7, false⟩] :=
  C8_snapshot_roundtrip ⟨[], [], 0, [], []⟩ BuildCategory.Common _
    (by intro r hr
        simp only [List.mem_singleton] at hr
        subst hr
        decide)
    (by simp)

/-! ### Cache state lemmas -/

theorem lookupA_upsert_self {β : Type} (l : List (String × β)) (f : String)
    (d : β) : lookupA (upsertA l f d) f = some d := by
  unfold upsertA lookupA
  rw [if_pos rfl]

theorem lookupA_removeA_ne {β : Type} (l : List (String × β)) (f g : String)
    (h : ¬g = f) : lookupA (removeA l f) g = lookupA l g := by
  induction l with
  | nil => rfl
  | cons p rest ih =>
    obtain ⟨a, d⟩ := p
    by_cases hp : a = f
    · have h1 : removeA ((a, d) :: rest) f = removeA rest f := by
        simp only [removeA, if_pos hp]
      rw [h1, ih]
      rw [show lookupA ((a, d) :: rest) g =
        (if a = g then some d else lookupA rest g) from rfl]
      rw [if_neg (fun he => h (he.symm.trans hp))]
    · have h1 : removeA ((a, d) :: rest) f = (a, d) :: removeA rest f := by
        simp only [removeA, if_neg hp]
      rw [h1]
      rw [show lookupA ((a, d) :: removeA rest f) g =
        (if a = g then some d else lookupA (removeA rest f) g) from rfl]
      rw [show lookupA ((a, d) :: rest) g =
        (if a = g then some d else lookupA rest g) from rfl]
      by_cases hg : a = g
      · rw [if_pos hg, if_pos hg]
      · rw [if_neg hg, if_neg hg, ih]

theorem lookupA_upsert_ne {β : Type} (l : List (String × β)) (f g : String)
    (d : β) (h : ¬g = f) : lookupA (upsertA l f d) g = lookupA l g := by
  unfold upsertA
  rw [show lookupA ((f, d) :: removeA l f) g =
    (if f = g then some d else lookupA (removeA l f) g) from rfl]
  rw [if_neg (fun he => h he.symm)]
  exact lookupA_removeA_ne l f g h

theorem lookupA_removeA_self {β : Type} (l : List (String × β)) (f : String) :
    lookupA (removeA l f) f = none := by
  induction l with
  | nil => rfl
  | cons p rest ih =>
    obtain ⟨a, d⟩ := p
    by_cases hp : a = f
    · have h1 : removeA ((a, d) :: rest) f = removeA rest f := by
        simp only [removeA, if_pos hp]
      rw [h1, ih]
    · have h1 : removeA ((a, d) :: rest) f = (a, d) :: removeA rest f := by
        simp only [removeA, if_neg hp]
      rw [h1]
      rw [show lookupA ((a, d) :: removeA rest f) f =
        (if a = f then some d else lookupA (removeA rest f) f) from rfl]
      rw [if_neg hp, ih]

theorem removeA_not_mem {β : Type} (l : List (String × β)) (f : String)
    (h : lookupA l f = none) : removeA l f = l := by
  induction l with
  | nil => rfl
  | cons p rest ih =>
    obtain ⟨a, d⟩ := p
    rw [show lookupA ((a, d) :: rest) f =
      (if a = f then some d else lookupA rest f) from rfl] at h
    by_cases hp : a = f
    · rw [if_pos hp] at h
      exact Option.noConfusion h
    · rw [if_neg hp] at h
      simp only [removeA, if_neg hp, ih h]

theorem catFileName_inj :
    ∀ c1 c2 : BuildCategory,
      Cache.catFileName c1 = Cache.catFileName c2 → c1 = c2 := by
  intro c1 c2 h
  cases c1 <;> cases c2 <;> first | rfl | (exfalso; revert h; decide)

theorem catFileName_ne_version :
    ∀ c : BuildCategory, ¬Cache.versionFileName = Cache.catFileName c := by
  intro c
  cases c <;> decide

theorem removeFile_ok (s : CacheSt) (f : String) (h : f ∉ s.rmFail) :
    Cache.removeFile s f = .ok { s with files := removeA s.files f } := by
  unfold Cache.removeFile
  rw [if_neg h]

theorem removeFile_error (s : CacheSt) (f : String) (h : f ∈ s.rmFail) :
    Cache.removeFile s f = .error () := by
  unfold Cache.removeFile
  rw [if_pos h]

theorem clearAll_cons_ok (s : CacheSt) (acc : Nat) (c : BuildCategory)
    (cs : List BuildCategory)
    (he : Cache.fileExists s (Cache.catFileName c) = true)
    (hnf : Cache.catFileName c ∉ s.rmFail) :
    Cache.clearAll s acc (c :: cs) =
      Cache.clearAll { s with files := removeA s.files (Cache.catFileName c) } (acc + 1) cs := by
  simp only [Cache.clearAll, if_pos he, removeFile_ok s _ hnf]

theorem clearAll_cons_skip (s : CacheSt) (acc : Nat) (c : BuildCategory)
    (cs : List BuildCategory)
    (he : ¬Cache.fileExists s (Cache.catFileName c) = true) :
    Cache.clearAll s acc (c :: cs) = Cache.clearAll s acc cs := by
  simp only [Cache.clearAll, if_neg he]

theorem clearAll_cons_error (s : CacheSt) (acc : Nat) (c : BuildCategory)
    (cs : List BuildCategory)
    (he : Cache.fileExists s (Cache.catFileName c) = true)
    (hf : Cache.catFileName c ∈ s.rmFail) :
    Cache.clearAll s acc (c :: cs) = (.error (), s) := by
  simp only [Cache.clearAll, if_pos he, removeFile_error s _ hf]

theorem clearAll_preserves (cats : List BuildCategory) (s : CacheSt)
    (acc : Nat) :
    (Cache.clearAll s acc cats).2.rmFail = s.rmFail ∧
    (Cache.clearAll s acc cats).2.wrFail = s.wrFail ∧
    (Cache.clearAll s acc cats).2.mtimes = s.mtimes ∧
    (Cache.clearAll s acc cats).2.today = s.today := by
  induction cats generalizing s acc with
  | nil => exact ⟨rfl, rfl, rfl, rfl⟩
  | cons c cs ih =>
    by_cases he : Cache.fileExists s (Cache.catFileName c) = true
    · by_cases hf : Cache.catFileName c ∈ s.rmFail
      · rw [clearAll_cons_error s acc c cs he hf]
        exact ⟨rfl, rfl, rfl, rfl⟩
      · rw [clearAll_cons_ok s acc c cs he hf]
        exact ih _ _
    · rw [clearAll_cons_skip s acc c cs he]
      exact ih s acc

theorem clearAll_frame (cats : List BuildCategory) (s : CacheSt) (acc : Nat)
    (f : String) (h : ∀ c ∈ cats, ¬f = Cache.catFileName c) :
    lookupA (Cache.clearAll s acc cats).2.files f = lookupA s.files f := by
  induction cats generalizing s acc with
  | nil => rfl
  | cons c cs ih =>
    have hc : ¬f = Cache.catFileName c := h c (List.mem_cons_self c cs)
    have hcs : ∀ c' ∈ cs, ¬f = Cache.catFileName c' :=
      fun c' hm => h c' (List.mem_cons_of_mem c hm)
    by_cases he : Cache.fileExists s (Cache.catFileName c) = true
    · by_cases hf : Cache.catFileName c ∈ s.rmFail
      · rw [clearAll_cons_error s acc c cs he hf]
      · rw [clearAll_cons_ok s acc c cs he hf, ih _ _ hcs]
        exact lookupA_removeA_ne s.files (Cache.catFileName c) f hc
    · rw [clearAll_cons_skip s acc c cs he]
      exact ih s acc hcs

theorem clearAll_ok (cats : List BuildCategory) (s : CacheSt) (acc : Nat)
    (hrm : s.rmFail = [])
    (hpw : cats.Pairwise
      (fun a b => ¬Cache.catFileName a = Cache.catFileName b)) :
    (Cache.clearAll s acc cats).1 =
      .ok (acc + (cats.filter
        (fun c => Cache.fileExists s (Cache.catFileName c))).length) ∧
    ∀ c ∈ cats,
      Cache.fileExists (Cache.clearAll s acc cats).2 (Cache.catFileName c) =
        false := by
  induction cats generalizing s acc with
  | nil => exact ⟨rfl, by intro c hc; exact absurd hc (List.not_mem_nil c)⟩
  | cons c cs ih =>
    have hpw1 : ∀ b ∈ cs, ¬Cache.catFileName c = Cache.catFileName b :=
      fun b hb => List.rel_of_pairwise_cons hpw hb
    have hpw2 : cs.Pairwise
        (fun a b => ¬Cache.catFileName a = Cache.catFileName b) :=
      List.Pairwise.of_cons hpw
    by_cases he : Cache.fileExists s (Cache.catFileName c) = true
    · have hnf : Cache.catFileName c ∉ s.rmFail := by
        rw [hrm]
        exact List.not_mem_nil _
      have hstep := clearAll_cons_ok s acc c cs he hnf
      have hs' : ∀ c' ∈ cs,
          Cache.fileExists { s with files := removeA s.files (Cache.catFileName c) } (Cache.catFileName c') =
          Cache.fileExists s (Cache.catFileName c') := by
        intro c' hm
        unfold Cache.fileExists
        rw [lookupA_removeA_ne s.files _ _ (fun heq => hpw1 c' hm heq.symm)]
      obtain ⟨ih1, ih2⟩ :=
        ih { s with files := removeA s.files (Cache.catFileName c) } (acc + 1) hrm hpw2
      refine ⟨?_, ?_⟩
      · rw [hstep, ih1, List.filter_cons_of_pos (by simpa using he)]
        rw [List.filter_congr hs']
        simp only [List.length_cons]
        congr 1
        omega
      · intro c' hm
        rcases List.mem_cons.mp hm with hm | hm
        · subst hm
          rw [hstep]
          unfold Cache.fileExists
          rw [clearAll_frame cs _ _ _ (fun b hb heq => hpw1 b hb heq)]
          show (lookupA (removeA s.files (Cache.catFileName c'))
            (Cache.catFileName c')).isSome = false
          rw [lookupA_removeA_self]
          rfl
        · rw [hstep]
          exact ih2 c' hm
    · have hstep := clearAll_cons_skip s acc c cs he
      obtain ⟨ih1, ih2⟩ := ih s acc hrm hpw2
      refine ⟨?_, ?_⟩
      · rw [hstep, ih1, List.filter_cons_of_neg (by simpa using he)]
      · intro c' hm
        rcases List.mem_cons.mp hm with hm | hm
        · subst hm
          rw [hstep]
          unfold Cache.fileExists
          rw [clearAll_frame cs _ _ _ (fun b hb heq => hpw1 b hb heq)]
          have hfe : Cache.fileExists s (Cache.catFileName c') = false := by
            simpa using he
          unfold Cache.fileExists at hfe
          exact hfe
        · rw [hstep]
          exact ih2 c' hm

theorem clearAll_error (cats : List BuildCategory) (s : CacheSt) (acc : Nat)
    (cat : BuildCategory) (hm : cat ∈ cats)
    (he : Cache.fileExists s (Cache.catFileName cat) = true)
    (hf : Cache.catFileName cat ∈ s.rmFail) :
    (Cache.clearAll s acc cats).1 = .error () := by
  induction cats generalizing s acc with
  | nil => exact absurd hm (List.not_mem_nil cat)
  | cons c cs ih =>
    by_cases hex : Cache.fileExists s (Cache.catFileName c) = true
    · by_cases hcf : Cache.catFileName c ∈ s.rmFail
      · rw [clearAll_cons_error s acc c cs hex hcf]
      · have hne : cat ∈ cs := by
          rcases List.mem_cons.mp hm with hm | hm
          · subst hm
            exact absurd hf hcf
          · exact hm
        rw [clearAll_cons_ok s acc c cs hex hcf]
        refine ih { s with files := removeA s.files (Cache.catFileName c) } (acc + 1) hne ?_ hf
        unfold Cache.fileExists
        by_cases heq : Cache.catFileName cat = Cache.catFileName c
        · rw [catFileName_inj cat c heq] at hf
          exact absurd hf hcf
        · rw [lookupA_removeA_ne s.files _ _ heq]
          exact he
    · have hne : cat ∈ cs := by
        rcases List.mem_cons.mp hm with hm | hm
        · subst hm
          rw [he] at hex
          exact absurd rfl hex
        · exact hm
      rw [clearAll_cons_skip s acc c cs hex]
      exact ih s acc hne he hf

/-- **C7.** `clear(Some cat)` removes only that category's file and returns 1
or 0 according to prior existence; `clear(None)` removes exactly the category
files that existed and returns their count, so an immediate repeat returns 0;
missing files are not errors, but a removal I/O failure aborts with an error
(in both forms). -/
theorem C7_clear (s : CacheSt) :
    (s.rmFail = [] → ∀ cat : BuildCategory,
      Cache.clear s (some cat) =
        (.ok (if Cache.fileExists s (Cache.catFileName cat) = true then 1
          else 0),
          { s with files := removeA s.files (Cache.catFileName cat) })) ∧
    (s.rmFail = [] →
      (Cache.clear s none).1 = .ok (cachedCats s).length ∧
      cachedCats (Cache.clear s none).2 = [] ∧
      (Cache.clear (Cache.clear s none).2 none).1 = .ok 0) ∧
    (∀ cat : BuildCategory,
      Cache.fileExists s (Cache.catFileName cat) = true →
      Cache.catFileName cat ∈ s.rmFail →
      (Cache.clear s (some cat)).1 = .error ()) ∧
    (∀ cat : BuildCategory,
      Cache.fileExists s (Cache.catFileName cat) = true →
      Cache.catFileName cat ∈ s.rmFail →
      (Cache.clear s none).1 = .error ()) := by
  have hpwAll : BuildCategory.all.Pairwise
      (fun a b => ¬Cache.catFileName a = Cache.catFileName b) := by decide
  refine ⟨?_, ?_, ?_, ?_⟩
  · intro hrm cat
    by_cases he : Cache.fileExists s (Cache.catFileName cat) = true
    · have hnf : Cache.catFileName cat ∉ s.rmFail := by
        rw [hrm]
        exact List.not_mem_nil _
      simp only [Cache.clear, if_pos he, removeFile_ok s _ hnf]
    · have hnone : lookupA s.files (Cache.catFileName cat) = none := by
        unfold Cache.fileExists at he
        cases hx : lookupA s.files (Cache.catFileName cat) with
        | none => rfl
        | some d => rw [hx] at he; simp at he
      simp only [Cache.clear, if_neg he]
      rw [removeA_not_mem s.files _ hnone]
  · intro hrm
    obtain ⟨h1, h2⟩ := clearAll_ok BuildCategory.all s 0 hrm hpwAll
    have hres1 : (Cache.clear s none).1 = .ok (cachedCats s).length := by
      show (Cache.clearAll s 0 BuildCategory.all).1 = _
      rw [h1]
      unfold cachedCats
      rw [Nat.zero_add]
    have hnoneleft : ∀ c ∈ BuildCategory.all,
        ¬Cache.fileExists (Cache.clear s none).2 (Cache.catFileName c) =
          true := by
      intro c hc hcontra
      have hfalse : Cache.fileExists (Cache.clear s none).2
          (Cache.catFileName c) = false := h2 c hc
      rw [hcontra] at hfalse
      exact Bool.noConfusion hfalse
    have hres2 : cachedCats (Cache.clear s none).2 = [] := by
      unfold cachedCats
      exact List.filter_eq_nil_iff.mpr (by
        intro c hc
        simpa using hnoneleft c hc)
    refine ⟨hres1, hres2, ?_⟩
    have hrm2 : (Cache.clear s none).2.rmFail = [] := by
      show (Cache.clearAll s 0 BuildCategory.all).2.rmFail = []
      rw [(clearAll_preserves BuildCategory.all s 0).1, hrm]
    obtain ⟨h1', _⟩ := clearAll_ok BuildCategory.all (Cache.clear s none).2 0
      hrm2 hpwAll
    show (Cache.clearAll (Cache.clear s none).2 0 BuildCategory.all).1 = _
    rw [h1']
    have : (BuildCategory.all.filter (fun c =>
        Cache.fileExists (Cache.clear s none).2 (Cache.catFileName c))) =
        [] := by
      exact List.filter_eq_nil_iff.mpr (by
        intro c hc
        simpa using hnoneleft c hc)
    rw [this]
    rfl
  · intro cat he hf
    simp only [Cache.clear, if_pos he, removeFile_error s _ hf]
  · intro cat he hf
    exact clearAll_error BuildCategory.all s 0 cat (by cases cat <;> decide)
      he hf

/-- Witness for C7: clearing a concrete two-snapshot cache removes both files,
returns 2, and a repeat returns 0. -/
theorem C7_clear_witness :
    (Cache.clear ⟨[("bulk.json", .text "x"), ("win-max.json", .text "y"),
        (".version", .text "v")], [], 0, [], []⟩ none).1 =
      .ok (cachedCats ⟨[("bulk.json", .text "x"), ("win-max.json", .text "y"),
        (".version", .text "v")], [], 0, [], []⟩).length ∧
    cachedCats (Cache.clear ⟨[("bulk.json", .text "x"),
      ("win-max.json", .text "y"), (".version", .text "v")], [], 0, [], []⟩
        none).2 = [] ∧
    (Cache.clear (Cache.clear ⟨[("bulk.json", .text "x"),
      ("win-max.json", .text "y"), (".version", .text "v")], [], 0, [], []⟩
        none).2 none).1 = .ok 0 :=
  (C7_clear ⟨[("bulk.json", .text "x"), ("win-max.json", .text "y"),
    (".version", .text "v")], [], 0, [], []⟩).2.1 rfl

/-- **C10.** Both forms of `clear` touch only the five `<category>.json` files:
any other file name — in particular the `.version` marker — is unchanged. -/
theorem C10_clear_frame (s : CacheSt) (cat? : Option BuildCategory)
    (f : String) (hf : f ∉ BuildCategory.all.map Cache.catFileName) :
    lookupA (Cache.clear s cat?).2.files f = lookupA s.files f ∧
    Cache.readMarker (Cache.clear s cat?).2 = Cache.readMarker s := by
  have hgen : ∀ g, g ∉ BuildCategory.all.map Cache.catFileName →
      lookupA (Cache.clear s cat?).2.files g = lookupA s.files g := by
    intro g hg
    have hg' : ∀ c ∈ BuildCategory.all, ¬g = Cache.catFileName c := by
      intro c hc heq
      exact hg (heq ▸ List.mem_map_of_mem Cache.catFileName hc)
    cases cat? with
    | none => exact clearAll_frame BuildCategory.all s 0 g hg'
    | some cat =>
      have hne : ¬g = Cache.catFileName cat :=
        hg' cat (by cases cat <;> decide)
      by_cases he : Cache.fileExists s (Cache.catFileName cat) = true
      · by_cases hrf : Cache.catFileName cat ∈ s.rmFail
        · simp only [Cache.clear, if_pos he, removeFile_error s _ hrf]
        · simp only [Cache.clear, if_pos he, removeFile_ok s _ hrf]
          exact lookupA_removeA_ne s.files _ _ hne
      · simp only [Cache.clear, if_neg he]
  refine ⟨hgen f hf, ?_⟩
  unfold Cache.readMarker
  rw [hgen Cache.versionFileName (by decide)]

/-- Witness for C10: a stray file and the marker survive a full clear of a
concrete cache state. -/
theorem C10_clear_frame_witness :
    lookupA (Cache.clear ⟨[(".version", .text "v"), ("bulk.json", .text "x"),
      ("stray.txt", .text "z")], [], 0, [], []⟩ none).2.files "stray.txt" =
      lookupA [(".version", FileData.text "v"), ("bulk.json", .text "x"),
        ("stray.txt", .text "z")] "stray.txt" ∧
    Cache.readMarker (Cache.clear ⟨[(".version", .text "v"),
      ("bulk.json", .text "x"), ("stray.txt", .text "z")], [], 0, [], []⟩
        none).2 =
      Cache.readMarker ⟨[(".version", .text "v"), ("bulk.json", .text "x"),
        ("stray.txt", .text "z")], [], 0, [], []⟩ :=
  C10_clear_frame ⟨[(".version", .text "v"), ("bulk.json", .text "x"),
    ("stray.txt", .text "z")], [], 0, [], []⟩ none "stray.txt" (by decide)

/-- **C6.** At cache construction, a missing/unreadable/mismatched `.version`
marker clears every category cache file and rewrites the marker with the
current version (given no injected I/O faults); a present, matching marker
leaves the state untouched. -/
theorem C6_version_epoch (ver : String) (s : CacheSt)
    (hrm : s.rmFail = []) (hwr : Cache.versionFileName ∉ s.wrFail) :
    ((∀ t, Cache.readMarker s = some t → ¬t.trim = ver) →
      (∀ c : BuildCategory,
        Cache.fileExists (Cache.checkVersion ver s)
          (Cache.catFileName c) = false) ∧
      Cache.readMarker (Cache.checkVersion ver s) = some ver) ∧
    (∀ t, Cache.readMarker s = some t → t.trim = ver →
      Cache.checkVersion ver s = s) := by
  constructor
  · intro hmm
    have hcv : Cache.checkVersion ver s =
        Cache.writeVersion ver (Cache.clear s none).2 := by
      unfold Cache.checkVersion
      cases hm : Cache.readMarker s with
      | none => rfl
      | some t =>
        show (if t.trim = ver then s
          else Cache.writeVersion ver (Cache.clear s none).2) = _
        rw [if_neg (hmm t hm)]
    have hwr1 : Cache.versionFileName ∉ (Cache.clear s none).2.wrFail := by
      show Cache.versionFileName ∉
        (Cache.clearAll s 0 BuildCategory.all).2.wrFail
      rw [(clearAll_preserves BuildCategory.all s 0).2.1]
      exact hwr
    have hwv : Cache.writeVersion ver (Cache.clear s none).2 =
        { (Cache.clear s none).2 with
          files := upsertA (Cache.clear s none).2.files
            Cache.versionFileName (.text ver) } := by
      unfold Cache.writeVersion
      rw [if_neg hwr1]
    obtain ⟨_, h2⟩ := clearAll_ok BuildCategory.all s 0 hrm (by decide)
    constructor
    · intro c
      rw [hcv, hwv]
      unfold Cache.fileExists
      rw [lookupA_upsert_ne _ _ _ _ (fun he => catFileName_ne_version c
        he.symm)]
      have := h2 c (by cases c <;> decide)
      unfold Cache.fileExists at this
      exact this
    · rw [hcv, hwv]
      unfold Cache.readMarker
      rw [lookupA_upsert_self]
  · intro t ht htr
    unfold Cache.checkVersion
    rw [ht]
    show (if t.trim = ver then s
      else Cache.writeVersion ver (Cache.clear s none).2) = s
    rw [if_pos htr]

/-- Witness for C6: a cache state with one snapshot and no marker is cleared
and stamped with the running version. -/
theorem C6_version_epoch_witness :
    (∀ c : BuildCategory,
      Cache.fileExists (Cache.checkVersion "1.0.0"
        ⟨[("bulk.json", .text "x")], [], 0, [], []⟩)
        (Cache.catFileName c) = false) ∧
    Cache.readMarker (Cache.checkVersion "1.0.0"
      ⟨[("bulk.json", .text "x")], [], 0, [], []⟩) = some "1.0.0" :=
  (C6_version_epoch "1.0.0" ⟨[("bulk.json", .text "x")], [], 0, [], []⟩ rfl
    (List.not_mem_nil _)).1 (fun _ ht => Option.noConfusion ht)

/-- **C4.** `fetch_versions` serves the cached snapshot with
`was_from_cache = true` exactly when the bypass flag is off, the (post
version-check) cache file is valid, and it decodes; otherwise it performs the
network fetch: a transport error or body-decode failure is surfaced as an
error, and fresh data is returned with `was_from_cache = false` whether or not
the best-effort cache write succeeds (the write changes the state only when it
succeeds). -/
theorem C4_fetch_versions (o : ApiOptions) (hostOS : String) (bypass : Bool)
    (ver : String) (net : Except Unit Json) (s : CacheSt) :
    (∀ d, bypass = false →
      Cache.isValid (Cache.checkVersion ver s) (o.categoryD hostOS) = true →
      Cache.read (Cache.checkVersion ver s) (o.categoryD hostOS) = some d →
      fetch_versions o hostOS bypass ver net s =
        (.ok (d, true), Cache.checkVersion ver s)) ∧
    ((bypass = true ∨
      Cache.isValid (Cache.checkVersion ver s) (o.categoryD hostOS) = false ∨
      Cache.read (Cache.checkVersion ver s) (o.categoryD hostOS) = none) →
      (net = .error () →
        fetch_versions o hostOS bypass ver net s =
          (.error (), Cache.checkVersion ver s)) ∧
      (∀ body, net = .ok body → decodeSnapshot body = none →
        fetch_versions o hostOS bypass ver net s =
          (.error (), Cache.checkVersion ver s)) ∧
      (∀ body d, net = .ok body → decodeSnapshot body = some d →
        (fetch_versions o hostOS bypass ver net s).1 = .ok (d, false) ∧
        (Cache.write (Cache.checkVersion ver s) (o.categoryD hostOS) d =
            .error () →
          (fetch_versions o hostOS bypass ver net s).2 =
            Cache.checkVersion ver s) ∧
        (∀ s2,
          Cache.write (Cache.checkVersion ver s) (o.categoryD hostOS) d =
            .ok s2 →
          (fetch_versions o hostOS bypass ver net s).2 = s2))) := by
  constructor
  · intro d hb hv hr
    simp only [fetch_versions, hb, hv, hr, Bool.not_false, Bool.true_and,
      if_true]
  · intro hdisj
    have hcond : (if !bypass &&
        Cache.isValid (Cache.checkVersion ver s) (o.categoryD hostOS) then
        Cache.read (Cache.checkVersion ver s) (o.categoryD hostOS)
      else none) = none := by
      rcases hdisj with hb | hv | hr
      · rw [hb]
        simp
      · rw [hv]
        simp
      · by_cases hc : (!bypass &&
          Cache.isValid (Cache.checkVersion ver s) (o.categoryD hostOS)) = true
        · rw [if_pos hc]
          exact hr
        · rw [if_neg hc]
    refine ⟨?_, ?_, ?_⟩
    · intro hnet
      simp only [fetch_versions, hcond, hnet]
    · intro body hnet hdec
      simp only [fetch_versions, hcond, hnet, hdec]
    · intro body d hnet hdec
      cases hw : Cache.write (Cache.checkVersion ver s) (o.categoryD hostOS) d
        with
      | error e =>
        refine ⟨?_, ?_, ?_⟩
        · simp only [fetch_versions, hcond, hnet, hdec, hw]
        · intro _
          simp only [fetch_versions, hcond, hnet, hdec, hw]
        · intro s2 hs2
          exact Except.noConfusion hs2
      | ok s2 =>
        refine ⟨?_, ?_, ?_⟩
        · simp only [fetch_versions, hcond, hnet, hdec, hw]
        · intro hcontra
          exact Except.noConfusion hcontra
        · intro s2' hs2'
          have hss : s2 = s2' := by
            injection hs2'
          subst hss
          simp only [fetch_versions, hcond, hnet, hdec, hw]

/-- Witness for C4: with the cache bypassed and a failing transport, the error
is surfaced to the caller. -/
theorem C4_fetch_versions_witness :
    fetch_versions ⟨some .Common, none, some "linux", some "x86_64", none⟩
        "linux" true "1.0" (.error ()) ⟨[], [], 0, [], []⟩ =
      (.error (), Cache.checkVersion "1.0" ⟨[], [], 0, [], []⟩) :=
  ((C4_fetch_versions ⟨some .Common, none, some "linux", some "x86_64", none⟩
    "linux" true "1.0" (.error ()) ⟨[], [], 0, [], []⟩).2
    (Or.inl rfl)).1 rfl

theorem not_ltb_leb (a b : SemVer) (h : ¬a.ltb b = true) : b.leb a = true := by
  obtain ⟨a1, a2, a3⟩ := a
  obtain ⟨b1, b2, b3⟩ := b
  simp only [SemVer.ltb, Bool.or_eq_true, Bool.and_eq_true, decide_eq_true_eq,
    beq_iff_eq, not_or, not_and, not_lt] at h
  simp only [SemVer.leb, SemVer.ltb, Bool.or_eq_true, Bool.and_eq_true,
    decide_eq_true_eq, beq_iff_eq, SemVer.mk.injEq]
  omega

theorem ltb_leb (a b : SemVer) (h : a.ltb b = true) : a.leb b = true := by
  unfold SemVer.leb
  rw [h]
  rfl

theorem leb_refl (a : SemVer) : a.leb a = true := by
  unfold SemVer.leb
  simp

theorem leb_trans (a b c : SemVer) (h1 : a.leb b = true)
    (h2 : b.leb c = true) : a.leb c = true := by
  obtain ⟨a1, a2, a3⟩ := a
  obtain ⟨b1, b2, b3⟩ := b
  obtain ⟨c1, c2, c3⟩ := c
  simp only [SemVer.leb, SemVer.ltb, Bool.or_eq_true, Bool.and_eq_true,
    decide_eq_true_eq, beq_iff_eq, SemVer.mk.injEq] at h1 h2 ⊢
  omega

theorem keepEntry_iff_spec (cat : BuildCategory) (osN archN btN : String)
    (bound : Option SemVer) (r : SpcJsonResponse) :
    keepEntry cat osN archN btN bound r = true ↔
      SurvivesSpec cat osN archN btN bound r := by
  unfold keepEntry SurvivesSpec NameMatchesSpec
  cases hv : r.version with
  | none =>
    simp
  | some v =>
    cases bound with
    | none => cases cat <;> simp <;> tauto
    | some b => cases cat <;> simp <;> tauto

theorem highestFrom_ge_init (init : SemVer) (vs : List SemVer) :
    init.leb (highestFrom init vs) = true := by
  induction vs generalizing init with
  | nil => exact leb_refl init
  | cons v rest ih =>
    show init.leb (highestFrom (if init.ltb v then v else init) rest) = true
    by_cases h : init.ltb v = true
    · rw [if_pos h]
      exact leb_trans init v _ (ltb_leb init v h) (ih v)
    · rw [if_neg h]
      exact ih init

theorem highestFrom_ge_mem (init : SemVer) (vs : List SemVer) :
    ∀ w ∈ vs, w.leb (highestFrom init vs) = true := by
  induction vs generalizing init with
  | nil => exact fun w hw => absurd hw (List.not_mem_nil w)
  | cons v rest ih =>
    intro w hw
    show w.leb (highestFrom (if init.ltb v then v else init) rest) = true
    rcases List.mem_cons.mp hw with hw | hw
    · subst hw
      by_cases h : init.ltb w = true
      · rw [if_pos h]
        exact highestFrom_ge_init w rest
      · rw [if_neg h]
        exact leb_trans w init _ (not_ltb_leb init w h)
          (highestFrom_ge_init init rest)
    · exact ih _ w hw

theorem highestFrom_mem_or_init (init : SemVer) (vs : List SemVer) :
    highestFrom init vs = init ∨ highestFrom init vs ∈ vs := by
  induction vs generalizing init with
  | nil => exact Or.inl rfl
  | cons v rest ih =>
    show highestFrom (if init.ltb v then v else init) rest = init ∨
      highestFrom (if init.ltb v then v else init) rest ∈ v :: rest
    by_cases h : init.ltb v = true
    · rw [if_pos h]
      rcases ih v with h1 | h1
      · rw [h1]
        exact Or.inr (List.mem_cons_self v rest)
      · exact Or.inr (List.mem_cons_of_mem v h1)
    · rw [if_neg h]
      rcases ih init with h1 | h1
      · exact Or.inl h1
      · exact Or.inr (List.mem_cons_of_mem v h1)

/-- **C1.** Over any fetched entry list, `fetch_latest_version` keeps exactly
the entries satisfying the spec's survivor predicate (derived version exists,
name matches the category's platform pattern, major/minor equal the version
bound when set), and returns the maximum surviving version under
semantic-version ordering, with `0.0.0` as the no-survivor sentinel. -/
theorem C1_fetch_latest_version (o : ApiOptions) (hostOS hostArch : String)
    (data : List SpcJsonResponse) (osN archN : String)
    (hos : o.osStr hostOS = some osN)
    (harch : o.archStr hostArch = some archN) :
    ∃ v, fetch_latest_version o hostOS hostArch data = some v ∧
      (∀ r, keepEntry (o.categoryD hostOS) osN archN o.buildType o.version r =
          true ↔
        SurvivesSpec (o.categoryD hostOS) osN archN o.buildType o.version r) ∧
      (∀ w ∈ (data.filter (keepEntry (o.categoryD hostOS) osN archN
          o.buildType o.version)).filterMap SpcJsonResponse.version,
        w.leb v = true) ∧
      (v ∈ (data.filter (keepEntry (o.categoryD hostOS) osN archN o.buildType
          o.version)).filterMap SpcJsonResponse.version ∨ v = ⟨0, 0, 0⟩) ∧
      ((data.filter (keepEntry (o.categoryD hostOS) osN archN o.buildType
          o.version)).filterMap SpcJsonResponse.version = [] →
        v = ⟨0, 0, 0⟩) := by
  refine ⟨highestFrom ⟨0, 0, 0⟩ ((data.filter (keepEntry (o.categoryD hostOS)
    osN archN o.buildType o.version)).filterMap SpcJsonResponse.version),
    ?_, ?_, ?_, ?_, ?_⟩
  · unfold fetch_latest_version
    rw [hos, harch]
    rfl
  · exact fun r => keepEntry_iff_spec (o.categoryD hostOS) osN archN
      o.buildType o.version r
  · exact highestFrom_ge_mem ⟨0, 0, 0⟩ _
  · rcases highestFrom_mem_or_init ⟨0, 0, 0⟩ ((data.filter
      (keepEntry (o.categoryD hostOS) osN archN o.buildType
        o.version)).filterMap SpcJsonResponse.version) with h | h
    · exact Or.inr h
    · exact Or.inl h
  · intro hnil
    rw [hnil]
    rfl

/-- Witness for C1: two common-category entries under an `8.0` bound resolve
to `8.0.30`. -/
theorem C1_fetch_latest_version_witness :
    ∃ v, fetch_latest_version
        ⟨some .Common, some ⟨8, 0, 0⟩, some "linux", some "x86_64", none⟩
        "linux" "x86_64"
        [⟨false, "", "php-8.0.30-cli-linux-x86_64.tar.gz", "1",
          ⟨2024, 1, 2, 3, 4, 5⟩, 0, false⟩,
         ⟨false, "", "php-8.4.10-cli-linux-x86_64.tar.gz", "1",
          ⟨2024, 1, 2, 3, 4, 5⟩, 0, false⟩] = some v ∧
      (∀ r, keepEntry BuildCategory.Common "linux" "x86_64" "cli"
          (some ⟨8, 0, 0⟩) r = true ↔
        SurvivesSpec BuildCategory.Common "linux" "x86_64" "cli"
          (some ⟨8, 0, 0⟩) r) ∧
      (∀ w ∈ ([⟨false, "", "php-8.0.30-cli-linux-x86_64.tar.gz", "1",
          ⟨2024, 1, 2, 3, 4, 5⟩, 0, false⟩,
         ⟨false, "", "php-8.4.10-cli-linux-x86_64.tar.gz", "1",
          ⟨2024, 1, 2, 3, 4, 5⟩, 0,
            false⟩].filter (keepEntry BuildCategory.Common "linux" "x86_64"
          "cli" (some ⟨8, 0, 0⟩))).filterMap SpcJsonResponse.version,
        w.leb v = true) ∧
      (v ∈ ([⟨false, "", "php-8.0.30-cli-linux-x86_64.tar.gz", "1",
          ⟨2024, 1, 2, 3, 4, 5⟩, 0, false⟩,
         ⟨false, "", "php-8.4.10-cli-linux-x86_64.tar.gz", "1",
          ⟨2024, 1, 2, 3, 4, 5⟩, 0,
            false⟩].filter (keepEntry BuildCategory.Common "linux" "x86_64"
          "cli" (some ⟨8, 0, 0⟩))).filterMap SpcJsonResponse.version ∨
        v = ⟨0, 0, 0⟩) ∧
      (([⟨false, "", "php-8.0.30-cli-linux-x86_64.tar.gz", "1",
          ⟨2024, 1, 2, 3, 4, 5⟩, 0, false⟩,
         ⟨false, "", "php-8.4.10-cli-linux-x86_64.tar.gz", "1",
          ⟨2024, 1, 2, 3, 4, 5⟩, 0,
            false⟩].filter (keepEntry BuildCategory.Common "linux" "x86_64"
          "cli" (some ⟨8, 0, 0⟩))).filterMap SpcJsonResponse.version = [] →
        v = ⟨0, 0, 0⟩) :=
  C1_fetch_latest_version
    ⟨some .Common, some ⟨8, 0, 0⟩, some "linux", some "x86_64", none⟩
    "linux" "x86_64"
    [⟨false, "", "php-8.0.30-cli-linux-x86_64.tar.gz", "1",
      ⟨2024, 1, 2, 3, 4, 5⟩, 0, false⟩,
     ⟨false, "", "php-8.4.10-cli-linux-x86_64.tar.gz", "1",
      ⟨2024, 1, 2, 3, 4, 5⟩, 0, false⟩] "linux" "x86_64" rfl rfl

end SpcUtils
